import Mathlib

/-!
# Verification of the computational literature review pipeline

Shallow embedding of `src/utils.py`: the citation extraction of `file_loader`,
the `hyperP_scaler` configuration function, the topic-distribution integration
(`pd.concat(axis=1)` as used in `topic_outputs` and `inclusion_criteria`), the
multi-criteria scoring of `inclusion_criteria`, the round-trip export merge of
`return_included_papers`, and the abstract filtering of `fit_topic_model`.

Modelling conventions:
* pandas float cells are modelled as `Option ℚ`: `none` is IEEE NaN, `some q`
  an exact value.  The only divisions performed by the code are min-max
  normalisations `(x - min) / (max - min)`; when `max - min = 0` every
  numerator occurring in the batch is also `0`, so the float result is
  `0 / 0 = NaN`, modelled as `none`.  Real infinities never arise.
* python exceptions raised by pandas (`KeyError`, `TypeError`) are modelled
  with `Except PdErr`.
* the `.str` accessor pipeline of `file_loader` is modelled on `List Char`
  (structural recursion, so the kernel can evaluate it); a failing
  `astype(int)` / NaN propagation is modelled as `none`.
* `hyperP_scaler`'s arithmetic (`len(corpus) / 2000 * 10`) runs in IEEE-754
  binary64; it is modelled exactly on ℚ by `roundD`, which rounds to the
  nearest 53-bit significand (ties to even) after each operation.
* `DataFrame.sort_values(by, ascending=False)` (single `by` column, default
  `kind='quicksort'`, `na_position='last'`) computes
  `reverse (argsort (reverse xs))` on the non-NaN rows and appends the NaN
  rows in original order.  The model sorts by the total order "score
  descending, then original position ascending", which fixes a tie order;
  this tie order is what the program produces only when the underlying
  argsort is stable — numpy's default quicksort is an insertion sort, hence
  stable, only below 17 elements, and reorders ties beyond that (its
  introsort partition performs unconditional swaps).  No theorem below
  depends on the model's tie order: the ordering facts proved for the
  export (C8) are tie-agnostic, and the spec's stable-tie claim (C4) is
  reported as a code bug, not proved.
-/

/- Batteries marks the rational-number operations `@[irreducible]`, which
blocks elaborator-side evaluation of concrete runs of the model; restore the
default reducibility for this development so that `decide` can evaluate the
pipeline on concrete corpora (the kernel itself never respects
irreducibility, so nothing about the trusted checking changes). -/
attribute [local semireducible] Rat.add Rat.sub Rat.mul Rat.inv

instance instDecEqExcept {ε α : Type} [DecidableEq ε] [DecidableEq α] :
    DecidableEq (Except ε α) := fun x y =>
  match x, y with
  | .ok a, .ok b =>
    if h : a = b then .isTrue (h ▸ rfl) else .isFalse (fun he => h (Except.ok.inj he))
  | .error a, .error b =>
    if h : a = b then .isTrue (h ▸ rfl) else .isFalse (fun he => h (Except.error.inj he))
  | .ok _, .error _ => .isFalse (fun he => Except.noConfusion he)
  | .error _, .ok _ => .isFalse (fun he => Except.noConfusion he)

/-! ## Character-list string helpers (for the `.str` pipeline of `file_loader`) -/

/-- `s.split(';')` on a character list: split on the single character `;`,
keeping empty fields, as Python `str.split` does. -/
def splitSemi : List Char → List (List Char)
  | [] => [[]]
  | c :: rest =>
    if c = ';' then [] :: splitSemi rest
    else
      match splitSemi rest with
      | [] => [[c]]
      | p :: ps => (c :: p) :: ps

/-- The two-character delimiter `": "` of the wos split. -/
def colonSpace : List Char := [':', ' ']

/-- Fuel-indexed split on a multi-character delimiter, scanning left to
right (non-overlapping) and keeping empty fields, as Python `str.split`
does.  The fuel (initially the length of the string) only serves
termination; one unit is spent per examined position. -/
def splitPatAux (pat : List Char) : Nat → List Char → List (List Char)
  | 0, l => [l]
  | _ + 1, [] => [[]]
  | fuel + 1, c :: cs =>
    if pat.isPrefixOf (c :: cs) then
      [] :: splitPatAux pat fuel ((c :: cs).drop pat.length)
    else
      match splitPatAux pat fuel cs with
      | [] => [[c]]
      | p :: ps => (c :: p) :: ps

/-- `s.split(': ')` on a character list. -/
def splitColon (l : List Char) : List (List Char) := splitPatAux colonSpace l.length l

/-- Whether `pat` occurs as a contiguous run anywhere in the list. -/
def containsPat (pat : List Char) : List Char → Bool
  | [] => false
  | c :: cs => pat.isPrefixOf (c :: cs) || containsPat pat cs

/-- The marker string `"Cited By: "` removed by
`corpus['Citations'].str.replace("Cited By: ", "")`. -/
def markerCB : List Char := "Cited By: ".toList

/-- Fuel-indexed replace-all-with-empty: removes every occurrence of `pat`
from the list.  The fuel (initially the length of the list) only serves
termination; one unit is spent per examined position. -/
def replaceAllAux (pat : List Char) : Nat → List Char → List Char
  | 0, l => l
  | _ + 1, [] => []
  | fuel + 1, c :: cs =>
    if pat.isPrefixOf (c :: cs) then replaceAllAux pat fuel ((c :: cs).drop pat.length)
    else c :: replaceAllAux pat fuel cs

/-- `s.replace(pat, "")`: remove every occurrence of `pat`. -/
def replaceAll (pat l : List Char) : List Char := replaceAllAux pat l.length l

/-- Strip leading and trailing whitespace, as Python `int(...)` does before
parsing. -/
def trimWs (l : List Char) : List Char :=
  ((l.dropWhile Char.isWhitespace).reverse.dropWhile Char.isWhitespace).reverse

/-- Decimal value of a digit list (most significant first). -/
def natOfDigits : List Char → Nat :=
  List.foldl (fun a c => a * 10 + (c.toNat - 48)) 0

/-- Python `int(s)` on a string, as used by `.astype(int)` on an object
column: strip whitespace, allow an optional sign, then parse a non-empty
digit string; any other input raises, modelled as `none`. -/
def parseIntChars (l : List Char) : Option Int :=
  match trimWs l with
  | [] => none
  | c :: cs =>
    if c = '-' then
      if cs ≠ [] ∧ cs.all Char.isDigit then some (-(natOfDigits cs : Int)) else none
    else if c = '+' then
      if cs ≠ [] ∧ cs.all Char.isDigit then some ((natOfDigits cs : Int)) else none
    else if (c :: cs).all Char.isDigit then some ((natOfDigits (c :: cs) : Int)) else none

/-- Citation extraction of `file_loader` for `source == "scopus"`
(src/utils.py lines 52-54):
`corpus['Citations'].str[0].str.split(';').str[1].str.replace("Cited By: ", "").astype(int)`.
The notes cell is a list of strings; `.str[0]` takes the first, a missing
element gives NaN and `astype(int)` then raises (`none`). -/
def scopusCitation (notes : List (List Char)) : Option Int :=
  match notes[0]? with
  | none => none
  | some s =>
    match (splitSemi s)[1]? with
    | none => none
    | some t => parseIntChars (replaceAll markerCB t)

/-- Citation extraction of `file_loader` for `source == "wos"`
(src/utils.py lines 55-57):
`corpus['Citations'].str[1].str.split(': ').str[1].astype(int)`. -/
def wosCitation (notes : List (List Char)) : Option Int :=
  match notes[1]? with
  | none => none
  | some s =>
    match (splitColon s)[1]? with
    | none => none
    | some t => parseIntChars t

/-! ## `hyperP_scaler` (src/utils.py lines 258-267)

Python evaluates `int(len(corpus) / 2000 * 10) + 1` in IEEE-754 binary64:
the division rounds once and the multiplication rounds once, each to the
nearest double (ties to even).  The model reproduces that arithmetic exactly
on ℚ: `roundD` rounds a non-negative rational to the nearest value of the
form `m * 2^(e-52)` with `2^52 ≤ m < 2^53` (a normal double's significand),
which agrees with binary64 on the whole range a corpus length can reach. -/

/-- Fuel-driven floor of the base-2 logarithm of `n` (fuel `f ≥ n` suffices). -/
def log2fuel : Nat → Nat → Nat
  | 0, _ => 0
  | f + 1, n => if n < 2 then 0 else log2fuel f (n / 2) + 1

/-- Floor of the base-2 logarithm of a positive natural. -/
def natLog2 (n : Nat) : Nat := log2fuel n n

/-- Smallest `k` with `b ≤ a * 2 ^ k`, found by doubling (fuel-driven). -/
def scaleUp (b : Nat) : Nat → Nat → Nat
  | 0, _ => 0
  | f + 1, a => if b ≤ a then 0 else scaleUp b f (2 * a) + 1

/-- Floor of the base-2 logarithm of the positive rational `a / b`. -/
def floorLog2 (a b : Nat) : Int :=
  if b ≤ a then (natLog2 (a / b) : Int) else -(scaleUp b b a : Int)

/-- Round a rational to the nearest integer, ties to even (IEEE default). -/
def rheQ (x : ℚ) : ℤ :=
  if x - ⌊x⌋ < 1/2 then ⌊x⌋
  else if (1:ℚ)/2 < x - ⌊x⌋ then ⌊x⌋ + 1
  else if ⌊x⌋ % 2 = 0 then ⌊x⌋ else ⌊x⌋ + 1

/-- Round a rational to the nearest IEEE-754 binary64 value (round to
nearest, ties to even), for the normal range: the significand is scaled to
`[2^52, 2^53)`, rounded to an integer, and scaled back. -/
def roundD (q : ℚ) : ℚ :=
  if q ≤ 0 then 0
  else
    (rheQ (q * 2 ^ ((52 : ℤ) - floorLog2 q.num.natAbs q.den)) : ℚ)
      * 2 ^ (floorLog2 q.num.natAbs q.den - 52)

/-- `hyperP_scaler`: `int(len(corpus) / 2000 * 10) + 1` and
`int(len(corpus) / 2000 * 15) + 1`, with the division and the
multiplication each rounded to binary64 as Python's float arithmetic does;
`int(...)` truncation on a non-negative value is the floor. -/
def hyperP_scaler (n : Nat) : Nat × Nat :=
  (⌊roundD (roundD ((n : ℚ) / 2000) * 10)⌋₊ + 1,
   ⌊roundD (roundD ((n : ℚ) / 2000) * 15)⌋₊ + 1)

/-! ## Data model -/

/-- One canonical bibliographic record, after `file_loader` renamed the rispy
fields to DOI, Title, Authors, Year, Source, Volume, Start, End, Abstract,
Citations, Type and coerced Year and Citations to numbers. -/
structure Paper where
  doi : Option String := none
  title : String := ""
  authors : List String := []
  year : ℚ := 0
  source : String := ""
  volume : Option String := none
  startPage : Option String := none
  endPage : Option String := none
  abstract : Option String := none
  citations : ℚ := 0
  typeOfRef : String := ""
deriving Repr, DecidableEq

/-- One row of the frame
`pd.concat([corpus.reset_index(drop=True), topics_df.reset_index(drop=True)], axis=1)`:
the bibliographic cells and the topic-distribution cells of that positional
index.  Either side is `none` where the outer join on the positional index
found no row (pandas fills such cells with NaN). -/
structure IRow where
  paper : Option Paper
  tvals : Option (List ℚ)
deriving Repr, DecidableEq

/-- `pd.concat([corpus.reset_index(drop=True), topics_df.reset_index(drop=True)], axis=1)`
(src/utils.py line 666, and identically line 568 in `topic_outputs`): an outer
join on the positional index.  Row counts need not match: the result has
`max` many rows and the shorter side contributes NaN cells, with no error. -/
def concatTopics (corpus : List Paper) (tdf : List (List ℚ)) : List IRow :=
  (List.range (max corpus.length tdf.length)).map (fun i => ⟨corpus[i]?, tdf[i]?⟩)

/-! ## Series arithmetic with NaN -/

/-- `Series.min()` with the default `skipna=True`: minimum of the non-NaN
entries, NaN (`none`) when there are none. -/
def seriesMin (xs : List (Option ℚ)) : Option ℚ := (xs.filterMap id).min?

/-- `Series.max()` with the default `skipna=True`. -/
def seriesMax (xs : List (Option ℚ)) : Option ℚ := (xs.filterMap id).max?

/-- `(s - s.min()) / (s.max() - s.min())` on a float series.  When
`max - min = 0` every entry of the series equals the minimum, so every cell
becomes `0 / 0 = NaN`; the same happens when the series is empty or all-NaN.
Otherwise NaN cells stay NaN and a value `v` becomes `(v - min)/(max - min)`. -/
def minmaxNormOpt (xs : List (Option ℚ)) : List (Option ℚ) :=
  match seriesMin xs, seriesMax xs with
  | some mn, some mx =>
    if mx - mn = 0 then xs.map (fun _ => none)
    else xs.map (fun x => x.map (fun v => (v - mn) / (mx - mn)))
  | _, _ => xs.map (fun _ => none)

/-- Min-max normalisation of a NaN-free series (the `topic_score` column is
built by a NaN-skipping row sum, so it is NaN-free). -/
def minmaxNorm (xs : List ℚ) : List (Option ℚ) := minmaxNormOpt (xs.map some)

/-- NaN-propagating addition. -/
def optAdd : Option ℚ → Option ℚ → Option ℚ
  | some a, some b => some (a + b)
  | _, _ => none

/-! ## `inclusion_criteria` (src/utils.py lines 650-702) -/

/-- Pandas errors surfaced by the scoring loop: `output[key]` on an absent
column raises `KeyError`; multiplying a string/object column by a float
raises `TypeError`. -/
inductive PdErr where
  | keyError (k : String)
  | typeError (k : String)
deriving Repr, DecidableEq

def citesKey : String := "cites"
def recencyKey : String := "recency"
def topicsKey : String := "topics"
def citeScoreName : String := "cite_score"
def recencyScoreName : String := "recency_score"

/-- The string-valued (object) columns of the canonical corpus frame; a
non-reserved weight key naming one of these finds the column, and the
subsequent multiplication by a float raises `TypeError`. -/
def paperStrCols : List String :=
  ["DOI", "Title", "Authors", "Source", "Volume", "Start", "End", "Abstract", "Type"]

/-- The score columns created by the `for key in weights` loop:
`cite_score`, `recency_score` (absent until their key is seen, as in the
frame) and the per-topic weighted columns together with their creation
order (`score_list`). -/
structure ScoreCols where
  citeScore : Option (List (Option ℚ))
  recencyScore : Option (List (Option ℚ))
  wcols : List (String × List (Option ℚ))
deriving Repr, DecidableEq

/-- Column lookup continued past the fixed bibliographic columns: the topic
columns are the non-outlier topic labels `col_names[1:]`, read positionally
from the distribution cells, and after them the weighted dummy columns
`<earlier key>W` appended by earlier loop iterations; anything else raises
`KeyError`. -/
def topicOrCreatedCol (labels : List String) (rows : List IRow) (st : ScoreCols)
    (k : String) : Except PdErr (List (Option ℚ)) :=
  match (labels.drop 1).findIdx? (fun s => s = k) with
  | some j => .ok (rows.map (fun r => r.tvals.bind (fun t => t[j]?)))
  | none =>
    match st.wcols.lookup k with
    | some col => .ok col
    | none => .error (.keyError k)

/-- `output[k]` for a numeric use, at a point in the loop where the columns
created so far are recorded in `st`: `Year` and `Citations` are the numeric
bibliographic columns; a string/object bibliographic column raises
`TypeError` at the multiplication; `cite_score` and `recency_score` exist
once their reserved key has been processed; then the topic columns and the
weighted dummy columns of earlier iterations; anything else raises
`KeyError`.  (Duplicate column names — a topic label equal to a
bibliographic or score column name — are not modelled.) -/
def getNumCol (labels : List String) (rows : List IRow) (st : ScoreCols) (k : String) :
    Except PdErr (List (Option ℚ)) :=
  if k = "Year" then .ok (rows.map (fun r => r.paper.map Paper.year))
  else if k = "Citations" then .ok (rows.map (fun r => r.paper.map Paper.citations))
  else if k ∈ paperStrCols then .error (.typeError k)
  else if k = "cite_score" then
    match st.citeScore with
    | some col => .ok col
    | none => topicOrCreatedCol labels rows st k
  else if k = "recency_score" then
    match st.recencyScore with
    | some col => .ok col
    | none => topicOrCreatedCol labels rows st k
  else topicOrCreatedCol labels rows st k

/-- The `for key in weights` loop of `inclusion_criteria` (lines 670-683),
iterating the weight mapping in key order:
`cites` and `recency` min-max normalise Citations resp. Year and multiply by
the weight; `topics` is skipped; any other key reads `output[key]`,
multiplies by the weight into a dummy column `key + 'W'` and appends it to
`score_list`. -/
def scoreLoop (labels : List String) (rows : List IRow) :
    List (String × ℚ) → ScoreCols → Except PdErr ScoreCols
  | [], st => .ok st
  | (k, w) :: rest, st =>
    if k = citesKey then
      let col := (minmaxNormOpt (rows.map (fun r => r.paper.map Paper.citations))).map
        (Option.map (fun v => v * w))
      scoreLoop labels rows rest { st with citeScore := some col }
    else if k = recencyKey then
      let col := (minmaxNormOpt (rows.map (fun r => r.paper.map Paper.year))).map
        (Option.map (fun v => v * w))
      scoreLoop labels rows rest { st with recencyScore := some col }
    else if k = topicsKey then scoreLoop labels rows rest st
    else
      match getNumCol labels rows st k with
      | .error e => .error e
      | .ok col =>
        scoreLoop labels rows rest
          { st with wcols := st.wcols ++ [(k ++ "W", col.map (Option.map (fun v => v * w)))] }

/-- `output[score_list].sum(axis=1)`: per-row sum over the weighted topic
columns with the default `skipna=True` (NaN counts as 0) and sum 0 for an
empty column list, so the result is NaN-free. -/
def rowSum (wcols : List (String × List (Option ℚ))) (n : Nat) : List ℚ :=
  (List.range n).map (fun i => (wcols.map (fun c => ((c.2[i]?).join).getD 0)).sum)

/-- One fully scored row of the output frame of `inclusion_criteria`, in
pre-sort (original) order. -/
structure OutRow where
  paper : Option Paper
  tvals : Option (List ℚ)
  citeScore : Option ℚ
  recencyScore : Option ℚ
  topicScore : Option ℚ
  score : Option ℚ
  wvals : List (String × Option ℚ)
deriving Repr, DecidableEq

/-- Lines 657-693 of `inclusion_criteria`: build the concatenated frame, run
the weight loop, sum and normalise the topic columns, multiply by
`weights['topics']` (KeyError when absent), and add the three component
columns into `score` (KeyError when `cites` or `recency` never created its
column).  Returns the scored rows in original row order. -/
def scoredRows (corpus : List Paper) (labels : List String) (tdf : List (List ℚ))
    (ws : List (String × ℚ)) : Except PdErr (List OutRow) :=
  let rows := concatTopics corpus tdf
  match scoreLoop labels rows ws ⟨none, none, []⟩ with
  | .error e => .error e
  | .ok st =>
    let n := rows.length
    let traw := rowSum st.wcols n
    match ws.lookup topicsKey with
    | none => .error (.keyError topicsKey)
    | some tw =>
      let topicCol := (minmaxNorm traw).map (Option.map (fun v => v * tw))
      match st.citeScore with
      | none => .error (.keyError citeScoreName)
      | some cc =>
        match st.recencyScore with
        | none => .error (.keyError recencyScoreName)
        | some rc =>
          .ok ((List.range n).map (fun i =>
            ⟨(rows[i]?.map IRow.paper).join,
              (rows[i]?.map IRow.tvals).join,
              (cc[i]?).join,
              (rc[i]?).join,
              (topicCol[i]?).join,
              optAdd (optAdd ((cc[i]?).join) ((rc[i]?).join)) ((topicCol[i]?).join),
              st.wcols.map (fun c => (c.1, (c.2[i]?).join))⟩))

/-! ## `sort_values(by=['score'], ascending=False)` -/

/-- Order underlying the descending stable sort on position-tagged rows:
score descending, equal scores by original position ascending.  On rows with
pairwise-distinct positions this is a total antisymmetric order, so the
sorted result is exactly pandas' reverse-of-reversed-stable-argsort. -/
def scoreRel (sv : α → Option ℚ) (a b : Nat × α) : Prop :=
  (sv b.2).getD 0 < (sv a.2).getD 0 ∨
    ((sv a.2).getD 0 = (sv b.2).getD 0 ∧ a.1 ≤ b.1)

instance scoreRelDecidable (sv : α → Option ℚ) : DecidableRel (scoreRel sv) := fun _a _b =>
  inferInstanceAs (Decidable (_ ∨ _ ∧ _))

instance scoreRelTotal (sv : α → Option ℚ) : IsTotal (Nat × α) (scoreRel sv) := by
  constructor
  intro a b
  rcases lt_trichotomy ((sv a.2).getD 0) ((sv b.2).getD 0) with h | h | h
  · exact Or.inr (Or.inl h)
  · rcases Nat.le_total a.1 b.1 with h' | h'
    · exact Or.inl (Or.inr ⟨h, h'⟩)
    · exact Or.inr (Or.inr ⟨h.symm, h'⟩)
  · exact Or.inl (Or.inl h)

instance scoreRelTrans (sv : α → Option ℚ) : IsTrans (Nat × α) (scoreRel sv) := by
  constructor
  intro a b c hab hbc
  rcases hab with h1 | ⟨h1, h1'⟩
  · rcases hbc with h2 | ⟨h2, _⟩
    · exact Or.inl (h2.trans h1)
    · exact Or.inl (lt_of_eq_of_lt h2.symm h1)
  · rcases hbc with h2 | ⟨h2, h2'⟩
    · exact Or.inl (lt_of_lt_of_eq h2 h1.symm)
    · exact Or.inr ⟨h1.trans h2, h1'.trans h2'⟩

/-- `nargsort(items, kind, ascending=False, na_position='last')` on
position-tagged rows: the non-NaN rows sorted descending by `scoreRel`
(which breaks ties by original position, i.e. stably), then the NaN rows in
original order.  The NaN block and the descending order of the non-NaN
scores are faithful to pandas for every input; the tie order within equal
non-NaN scores matches the program only while numpy's default quicksort
behaves stably (fewer than 17 non-NaN rows), so no theorem relies on it. -/
def sortTagged (sv : α → Option ℚ) (l : List (Nat × α)) : List (Nat × α) :=
  List.insertionSort (scoreRel sv) (l.filter (fun p => (sv p.2).isSome)) ++
    l.filter (fun p => !(sv p.2).isSome)

/-- `df.sort_values(by=['score'], ascending=False)`: tag rows with their
positional index, sort, and forget the tags. -/
def sortByScoreDesc (sv : α → Option ℚ) (rows : List α) : List α :=
  (sortTagged sv rows.enum).map Prod.snd

/-- Line 700: `output.drop(output[score_list], axis=1)` when
`include_scores == False` — the per-topic weighted columns are removed, the
three component scores and `score` are kept. -/
def dropW (includeScores : Bool) (r : OutRow) : OutRow :=
  if includeScores then r else { r with wvals := [] }

/-- `inclusion_criteria(corpus, model, weights, include_scores)`
(src/utils.py lines 650-702): score every row, sort by `score` descending,
then drop the per-topic weighted columns unless requested.  The topic
distribution matrix `tdf` stands for `model.approximate_distribution(docs)`
and `labels` for `[*model.topic_labels_.values()]` (index 0 the outlier). -/
def inclusion_criteria (corpus : List Paper) (labels : List String)
    (tdf : List (List ℚ)) (ws : List (String × ℚ)) (includeScores : Bool) :
    Except PdErr (List OutRow) :=
  match scoredRows corpus labels tdf ws with
  | .error e => .error e
  | .ok pre => .ok ((sortByScoreDesc OutRow.score pre).map (dropW includeScores))

/-! ## `fit_topic_model` (src/utils.py lines 333-345) -/

/-- `fit_topic_model`: `corpus.dropna(subset=['Abstract'])` keeps exactly the
rows with a non-missing Abstract, in order; `docs = corpus['Abstract']` is
the abstract column of that subset, which `topic_model.fit_transform(docs)`
receives.  Returns the retained corpus and the submitted documents. -/
def fit_topic_model (corpus : List Paper) : List Paper × List String :=
  let kept := corpus.filter (fun p => p.abstract.isSome)
  (kept, kept.filterMap Paper.abstract)

/-! ## `return_included_papers` round-trip export (src/utils.py lines 745-772) -/

/-- A raw rispy entry as loaded from the RIS file for the round-trip merge;
cells may be missing (NaN). -/
structure RisEntry where
  title : Option String := none
  secondary_title : Option String := none
  ryear : Option String := none
  doi : Option String := none
deriving Repr, DecidableEq

/-- The columns `ranked_df[['Title', 'Source', 'score', 'cite_score',
'recency_score', 'topic_score']]` taken from the ranked frame for the merge. -/
structure RankedRow where
  rtitle : String := ""
  rsource : String := ""
  score : Option ℚ := none
  citeScore : Option ℚ := none
  recencyScore : Option ℚ := none
  topicScore : Option ℚ := none
deriving Repr, DecidableEq

/-- One row of `temp_df.merge(..., how='right', left_on=['title',
'secondary_title'], right_on=['Title', 'Source'])`: the raw cells (all NaN
for an unmatched right row) next to the ranked cells. -/
structure MergedRow where
  title : Option String
  secondary_title : Option String
  ryear : Option String
  doi : Option String
  rtitle : String
  rsource : String
  score : Option ℚ
  citeScore : Option ℚ
  recencyScore : Option ℚ
  topicScore : Option ℚ
deriving Repr, DecidableEq

/-- Natural-key match of the merge: raw `title`/`secondary_title` equal the
ranked `Title`/`Source` (NaN keys never match). -/
def risMatches (r : RankedRow) (e : RisEntry) : Bool :=
  e.title = some r.rtitle ∧ e.secondary_title = some r.rsource

def mergedOf (r : RankedRow) (e : RisEntry) : MergedRow :=
  ⟨e.title, e.secondary_title, e.ryear, e.doi,
    r.rtitle, r.rsource, r.score, r.citeScore, r.recencyScore, r.topicScore⟩

/-- The merge rows produced for the ranked row `r`: one per matching raw
entry (in raw order), or a single all-NaN-keyed row when nothing matches
(right join keeps every right row). -/
def matchRows (raw : List RisEntry) (r : RankedRow) : List MergedRow :=
  match raw.filter (risMatches r) with
  | [] => [⟨none, none, none, none,
      r.rtitle, r.rsource, r.score, r.citeScore, r.recencyScore, r.topicScore⟩]
  | ms => ms.map (mergedOf r)

/-- `how='right'` merge: right-frame (ranked) row order, left matches in raw
order. -/
def rightMerge (raw : List RisEntry) : List RankedRow → List MergedRow
  | [] => []
  | r :: rs => matchRows raw r ++ rightMerge raw rs

/-- A serialised cell after `fillna(value="none")`: either a retained value
or the literal sentinel string. -/
inductive Cell where
  | str (s : String)
  | num (q : ℚ)
deriving Repr, DecidableEq

def noneSentinel : String := "none"

/-- `fillna` on a string cell. -/
def fillCellS : Option String → Cell
  | some s => .str s
  | none => .str noneSentinel

/-- `fillna` on a float cell. -/
def fillCellQ : Option ℚ → Cell
  | some q => .num q
  | none => .str noneSentinel

/-- A round-tripped RIS record after dropping the merge-key columns `Title`
and `Source`, renaming the score columns to `custom1..custom4` and filling
every NaN with the sentinel. -/
structure ExportRow where
  title : Cell
  secondary_title : Cell
  ryear : Cell
  doi : Cell
  custom1 : Cell
  custom2 : Cell
  custom3 : Cell
  custom4 : Cell
deriving Repr, DecidableEq

def exportRowOf (m : MergedRow) : ExportRow :=
  ⟨fillCellS m.title, fillCellS m.secondary_title, fillCellS m.ryear, fillCellS m.doi,
    fillCellQ m.score, fillCellQ m.citeScore, fillCellQ m.recencyScore, fillCellQ m.topicScore⟩

/-- The round-trip export of `return_included_papers` (lines 752-772): right
join the raw entries onto the ranked subset by (title, source), sort by
`score` descending, drop the key columns, rename the score columns and fill
every missing cell with the `"none"` sentinel; the result is what
`rispy.dump` serialises. -/
def return_included_papers_export (raw : List RisEntry) (ranked : List RankedRow) :
    List ExportRow :=
  (sortByScoreDesc MergedRow.score (rightMerge raw ranked)).map exportRowOf

/-! ## Concrete fixtures used by the evaluation theorems and witnesses -/

def labsTwo : List String := ["-1_outliers", "T1"]

def paperA : Paper := { title := "A", year := 2020, citations := 7 }

def paperB : Paper := { title := "B", year := 2021, citations := 7 }

def tdfTwo : List (List ℚ) := [[1/2], [1/4]]

def wFull : List (String × ℚ) := [("cites", 1), ("recency", 1), ("topics", 1), ("T1", 1)]

def wYearKey : List (String × ℚ) := [("cites", 1), ("recency", 1), ("topics", 1), ("Year", 1)]

def recTen : Paper := { title := "P1", year := 2020, citations := 10 }

def recZero : Paper := { title := "P2", year := 2019, citations := 0 }

def recFiveA : Paper := { title := "P3", year := 2021, citations := 5 }

def recFiveB : Paper := { title := "P4", year := 2021, citations := 5 }

def tdfFour : List (List ℚ) := [[0], [0], [0], [0]]

def wCitesOnly : List (String × ℚ) := [("cites", 1), ("recency", 0), ("topics", 0)]

def sixPapers : List Paper := [recTen, recZero, recFiveA, recFiveB, paperA, paperB]

def tdfFive : List (List ℚ) := [[1], [2], [3], [4], [5]]

def entryAS : RisEntry :=
  { title := some "A", secondary_title := some "S", ryear := some "2020", doi := some "d1" }

def rankedAS : RankedRow :=
  { rtitle := "A", rsource := "S", score := some 2, citeScore := some 1,
    recencyScore := some 0, topicScore := some 1 }

def rankedZZ : RankedRow :=
  { rtitle := "ZZZ", rsource := "S", score := some 5, citeScore := some 1,
    recencyScore := some 1, topicScore := some 3 }

def absPaper : Paper := { title := "hasAbs", abstract := some "an abstract" }

def noAbsPaper : Paper := { title := "noAbs" }

/-! ## Lemmas about the citation-extraction string pipeline -/

lemma splitSemi_no_delim (s : List Char) (hs : ';' ∉ s) : splitSemi s = [s] := by
  induction s with
  | nil => rfl
  | cons c cs ih =>
    have hc : c ≠ ';' := fun h => hs (h ▸ List.mem_cons_self c cs)
    have hcs : ';' ∉ cs := fun h => hs (List.mem_cons_of_mem c h)
    rw [splitSemi, if_neg hc, ih hcs]

lemma splitSemi_append (p t : List Char) (hp : ';' ∉ p) :
    splitSemi (p ++ ';' :: t) = p :: splitSemi t := by
  induction p with
  | nil =>
    show splitSemi (';' :: t) = [] :: splitSemi t
    rw [splitSemi, if_pos rfl]
  | cons c cs ih =>
    have hc : c ≠ ';' := fun h => hp (h ▸ List.mem_cons_self c cs)
    have hcs : ';' ∉ cs := fun h => hp (List.mem_cons_of_mem c h)
    show splitSemi (c :: (cs ++ ';' :: t)) = (c :: cs) :: splitSemi t
    rw [splitSemi, if_neg hc, ih hcs]

lemma isPrefixOf_append_self {α : Type} [BEq α] [LawfulBEq α] (p q : List α) :
    p.isPrefixOf (p ++ q) = true := by
  induction p with
  | nil => cases q <;> rfl
  | cons a as ih => simp [List.isPrefixOf, ih]

lemma isPrefixOf_markerCB_digit (c : Char) (cs : List Char) (hc : c.isDigit = true) :
    markerCB.isPrefixOf (c :: cs) = false := by
  have hCc : ('C' == c) = false := by
    rcases Bool.eq_false_or_eq_true ('C' == c) with h | h
    · have : 'C' = c := eq_of_beq h
      subst this
      exact absurd hc (by decide)
    · exact h
  have hm : markerCB = 'C' :: "ited By: ".toList := by decide
  rw [hm, List.isPrefixOf, hCc, Bool.false_and]

lemma replaceAllAux_digits (f : Nat) (ds : List Char) (hds : ∀ c ∈ ds, c.isDigit = true) :
    replaceAllAux markerCB f ds = ds := by
  induction f generalizing ds with
  | zero => rfl
  | succ f ih =>
    cases ds with
    | nil => rfl
    | cons c cs =>
      have hc := hds c (List.mem_cons_self c cs)
      have hcs : ∀ x ∈ cs, x.isDigit = true := fun x hx => hds x (List.mem_cons_of_mem c hx)
      rw [replaceAllAux, isPrefixOf_markerCB_digit c cs hc]
      simp only [Bool.false_eq_true, if_false]
      rw [ih cs hcs]

lemma replaceAll_marker_append (f : Nat) (ds : List Char) (hds : ∀ c ∈ ds, c.isDigit = true) :
    replaceAllAux markerCB (f + 1) (markerCB ++ ds) = ds := by
  show (if markerCB.isPrefixOf (markerCB ++ ds) = true then
          replaceAllAux markerCB f ((markerCB ++ ds).drop markerCB.length)
        else 'C' :: replaceAllAux markerCB f ("ited By: ".toList ++ ds)) = ds
  rw [isPrefixOf_append_self, if_pos rfl, List.drop_left, replaceAllAux_digits f ds hds]

lemma digit_not_ws (c : Char) (h : c.isDigit = true) : c.isWhitespace = false := by
  rcases Bool.eq_false_or_eq_true c.isWhitespace with hw | hw
  · exfalso
    simp only [Char.isWhitespace, Bool.or_eq_true, decide_eq_true_eq] at hw
    rcases hw with ((h1 | h1) | h1) | h1 <;> rw [h1] at h <;> exact absurd h (by decide)
  · exact hw

lemma dropWhile_all_false {α : Type} (P : α → Bool) (l : List α)
    (h : ∀ c ∈ l, P c = false) : l.dropWhile P = l := by
  cases l with
  | nil => rfl
  | cons a l => rw [List.dropWhile_cons, h a (List.mem_cons_self a l)]; simp

lemma trimWs_digits (ds : List Char) (h : ∀ c ∈ ds, c.isDigit = true) : trimWs ds = ds := by
  unfold trimWs
  rw [dropWhile_all_false _ _ (fun c hc => digit_not_ws c (h c hc))]
  rw [dropWhile_all_false _ _
    (fun c hc => digit_not_ws c (h c (List.mem_reverse.mp hc)))]
  exact List.reverse_reverse ds

lemma parseIntChars_digits (ds : List Char) (hne : ds ≠ [])
    (h : ∀ c ∈ ds, c.isDigit = true) :
    parseIntChars ds = some ((natOfDigits ds : Int)) := by
  obtain ⟨c, cs, rfl⟩ := List.exists_cons_of_ne_nil hne
  have hc := h c (List.mem_cons_self c cs)
  have h1 : c ≠ '-' := fun he => by subst he; exact absurd hc (by decide)
  have h2 : c ≠ '+' := fun he => by subst he; exact absurd hc (by decide)
  have h3 : (c :: cs).all Char.isDigit = true := List.all_eq_true.mpr h
  simp [parseIntChars, trimWs_digits _ h, h1, h2, h3]

lemma splitPatAux_no_occur (pat : List Char) :
    ∀ (f : Nat) (s : List Char), containsPat pat s = false → splitPatAux pat f s = [s] := by
  intro f
  induction f with
  | zero => intro s _; rfl
  | succ f ih =>
    intro s hs
    cases s with
    | nil => rfl
    | cons c cs =>
      rw [containsPat, Bool.or_eq_false_iff] at hs
      obtain ⟨hp, hc⟩ := hs
      simp [splitPatAux, hp, ih cs hc]

lemma isPrefixOf_colonSpace_pair (c d : Char) (r : List Char) :
    colonSpace.isPrefixOf (c :: d :: r) = ((':' == c) && (' ' == d)) := by
  simp [colonSpace, List.isPrefixOf]

lemma isPrefixOf_colonSpace_single (c : Char) : colonSpace.isPrefixOf [c] = false := by
  show ((':' == c) && false) = false
  rw [Bool.and_false]

lemma splitPatAux_colonSpace_split :
    ∀ (f : Nat) (p t : List Char), containsPat colonSpace p = false →
      containsPat colonSpace t = false → p.length + t.length + 2 ≤ f →
      splitPatAux colonSpace f (p ++ ':' :: ' ' :: t) = [p, t] := by
  intro f
  induction f with
  | zero => intro p t _ _ hlen; omega
  | succ f ih =>
    intro p t hp ht hlen
    cases p with
    | nil =>
      have hpre : colonSpace.isPrefixOf (':' :: ' ' :: t) = true := by
        rw [isPrefixOf_colonSpace_pair]
        decide
      rw [List.nil_append]
      rw [show splitPatAux colonSpace (f + 1) (':' :: ' ' :: t) =
            [] :: splitPatAux colonSpace f t from by simp [splitPatAux, hpre, colonSpace]]
      rw [splitPatAux_no_occur colonSpace f t ht]
    | cons c pp =>
      rw [containsPat, Bool.or_eq_false_iff] at hp
      obtain ⟨hp1, hp2⟩ := hp
      have hpre : colonSpace.isPrefixOf (c :: (pp ++ ':' :: ' ' :: t)) = false := by
        cases pp with
        | nil =>
          rw [List.nil_append, isPrefixOf_colonSpace_pair]
          rw [show ((' ' == ':')) = false from by decide, Bool.and_false]
        | cons d pq =>
          rw [List.cons_append, isPrefixOf_colonSpace_pair]
          rw [isPrefixOf_colonSpace_pair] at hp1
          exact hp1
      have hlen2 : pp.length + t.length + 2 ≤ f := by
        simp only [List.length_cons] at hlen
        omega
      rw [List.cons_append]
      simp [splitPatAux, hpre, ih pp t hp2 ht hlen2]

lemma splitColon_split (p t : List Char) (hp : containsPat colonSpace p = false)
    (ht : containsPat colonSpace t = false) :
    splitColon (p ++ ':' :: ' ' :: t) = [p, t] := by
  unfold splitColon
  refine splitPatAux_colonSpace_split _ p t hp ht ?_
  rw [List.length_append]
  simp only [List.length_cons]
  omega

lemma digits_no_colonSpace (ds : List Char) (h : ∀ c ∈ ds, c.isDigit = true) :
    containsPat colonSpace ds = false := by
  induction ds with
  | nil => rfl
  | cons c cs ih =>
    rw [containsPat, Bool.or_eq_false_iff]
    refine ⟨?_, ih (fun x hx => h x (List.mem_cons_of_mem c hx))⟩
    have hc := h c (List.mem_cons_self c cs)
    have hne : (':' == c) = false := by
      rcases Bool.eq_false_or_eq_true (':' == c) with hcc | hcc
      · have hq : ':' = c := eq_of_beq hcc
        rw [← hq] at hc
        exact absurd hc (by decide)
      · exact hcc
    cases cs with
    | nil => exact isPrefixOf_colonSpace_single c
    | cons d ct => rw [isPrefixOf_colonSpace_pair, hne, Bool.false_and]

/-- C5 (amended): `file_loader`'s citation extraction applies the declared
schema's rule and yields the parsed integer when the rule matches, and
fails (raises, modelled `none`) when the schema's delimiter or required
notes entry is absent.  Scopus (first notes string, split on `;`, strip
`"Cited By: "`, parse int): fails when the first note has no `;` or when
there are no notes, succeeds on a second field of the form
`Cited By: <digits>`.  Wos (second notes string, split on `": "`, parse
int): fails when the second note contains no `": "` or when there are fewer
than two notes, succeeds on a second field of digits.  (The claim's further
assertion — that an absent scopus marker alone forces a failure — is
refuted by the counterexample theorem: a numeric second field parses
without the marker.) -/
theorem file_loader_citation_amended :
    (∀ (s : List Char) (rest : List (List Char)), ';' ∉ s →
      scopusCitation (s :: rest) = none)
    ∧ (∀ (p ds : List Char) (rest : List (List Char)), ';' ∉ p → ds ≠ [] →
        (∀ c ∈ ds, c.isDigit = true) →
        scopusCitation ((p ++ ';' :: (markerCB ++ ds)) :: rest) =
          some ((natOfDigits ds : Int)))
    ∧ scopusCitation [] = none
    ∧ (∀ (n0 s : List Char) (rest : List (List Char)),
        containsPat colonSpace s = false → wosCitation (n0 :: s :: rest) = none)
    ∧ (∀ (n0 p ds : List Char) (rest : List (List Char)),
        containsPat colonSpace p = false → ds ≠ [] →
        (∀ c ∈ ds, c.isDigit = true) →
        wosCitation (n0 :: (p ++ ':' :: ' ' :: ds) :: rest) =
          some ((natOfDigits ds : Int)))
    ∧ (∀ (n0 : List Char), wosCitation [n0] = none)
    ∧ wosCitation [] = none := by
  refine ⟨?_, ?_, rfl, ?_, ?_, ?_, rfl⟩
  · intro s rest hs
    simp [scopusCitation, splitSemi_no_delim s hs]
  · intro p ds rest hp hne hds
    have hnosemi : ';' ∉ markerCB ++ ds := by
      intro hmem
      rcases List.mem_append.mp hmem with hm | hm
      · exact absurd hm (by decide)
      · exact absurd (hds _ hm) (by decide)
    have h10 : markerCB.length = 10 := by decide
    obtain ⟨f, hf⟩ : ∃ f, (markerCB ++ ds).length = f + 1 := by
      refine ⟨9 + ds.length, ?_⟩
      rw [List.length_append, h10]
      omega
    simp only [scopusCitation, List.getElem?_cons_zero]
    rw [splitSemi_append p _ hp, splitSemi_no_delim _ hnosemi]
    simp only [List.getElem?_cons_succ, List.getElem?_cons_zero]
    show parseIntChars (replaceAll markerCB (markerCB ++ ds)) = some ((natOfDigits ds : Int))
    unfold replaceAll
    rw [hf, replaceAll_marker_append f ds hds, parseIntChars_digits ds hne hds]
  · intro n0 s rest hs
    simp only [wosCitation, List.getElem?_cons_succ, List.getElem?_cons_zero]
    rw [show splitColon s = [s] from splitPatAux_no_occur colonSpace s.length s hs]
    rfl
  · intro n0 p ds rest hp hne hds
    simp only [wosCitation, List.getElem?_cons_succ, List.getElem?_cons_zero]
    rw [splitColon_split p ds hp (digits_no_colonSpace ds hds)]
    simp only [List.getElem?_cons_succ, List.getElem?_cons_zero]
    exact parseIntChars_digits ds hne hds
  · intro n0
    rfl

/-- C5 counterexample: the scopus extraction does not fail when the marker
`"Cited By: "` is absent — a notes string whose second `;`-field is numeric,
such as `"foo;42"`, yields the integer 42 with no error, refuting "fails with
MalformedCitationField when the expected marker/delimiter is absent". -/
theorem file_loader_scopus_citation_counterexample :
    ¬ (markerCB <:+: "foo;42".toList) ∧ scopusCitation ["foo;42".toList] = some 42 := by
  constructor
  · decide
  · decide

/-- Witness for the amended C5 theorem at concrete inputs of both schemas. -/
theorem file_loader_citation_amended_witness :
    scopusCitation (("x".toList ++ ';' :: (markerCB ++ "42".toList)) :: []) = some 42
    ∧ scopusCitation ("no delimiter in sight".toList :: []) = none
    ∧ wosCitation ("first note".toList ::
        ("Times Cited".toList ++ ':' :: ' ' :: "17".toList) :: []) = some 17
    ∧ wosCitation ("first note".toList :: "no delim here".toList :: []) = none :=
  ⟨file_loader_citation_amended.2.1 "x".toList "42".toList []
      (by decide) (by decide) (by decide),
    file_loader_citation_amended.1 "no delimiter in sight".toList [] (by decide),
    file_loader_citation_amended.2.2.2.2.1 "first note".toList "Times Cited".toList
      "17".toList [] (by decide) (by decide) (by decide),
    file_loader_citation_amended.2.2.2.1 "first note".toList "no delim here".toList []
      (by decide)⟩

/-! ## C6: the hyperparameter scaler -/

lemma log2fuel_bounds : ∀ f n, 1 ≤ n → n ≤ f →
    2 ^ log2fuel f n ≤ n ∧ n < 2 ^ (log2fuel f n + 1) := by
  intro f
  induction f with
  | zero => intro n h1 h2; exact absurd (h1.trans h2) (by decide)
  | succ f ih =>
    intro n h1 h2
    by_cases hn : n < 2
    · have hn1 : n = 1 := by omega
      subst hn1
      simp [log2fuel]
    · rw [show log2fuel (f+1) n = log2fuel f (n / 2) + 1 from by simp [log2fuel, hn]]
      have h3 : 1 ≤ n / 2 := by omega
      have h4 : n / 2 ≤ f := by omega
      obtain ⟨ha, hb⟩ := ih (n / 2) h3 h4
      constructor
      · calc 2 ^ (log2fuel f (n / 2) + 1) = 2 ^ log2fuel f (n / 2) * 2 := pow_succ 2 _
          _ ≤ (n / 2) * 2 := Nat.mul_le_mul_right 2 ha
          _ ≤ n := Nat.div_mul_le_self n 2
      · calc n < (n / 2 + 1) * 2 := by omega
          _ ≤ 2 ^ (log2fuel f (n / 2) + 1) * 2 := Nat.mul_le_mul_right 2 (Nat.succ_le_of_lt hb)
          _ = 2 ^ (log2fuel f (n / 2) + 1 + 1) := (pow_succ 2 _).symm

lemma natLog2_bounds (n : ℕ) (h : 1 ≤ n) : 2 ^ natLog2 n ≤ n ∧ n < 2 ^ (natLog2 n + 1) :=
  log2fuel_bounds n n h le_rfl

lemma scaleUp_of_le (b a : ℕ) (h : b ≤ a) : ∀ f, scaleUp b f a = 0 := by
  intro f
  cases f with
  | zero => rfl
  | succ f => simp [scaleUp, h]

lemma scaleUp_bounds (b : ℕ) : ∀ f a, 0 < a → b ≤ a * 2 ^ f →
    b ≤ a * 2 ^ scaleUp b f a ∧ (a < b → a * 2 ^ scaleUp b f a < 2 * b) := by
  intro f
  induction f with
  | zero =>
    intro a ha hab
    rw [pow_zero, mul_one] at hab
    rw [show scaleUp b 0 a = 0 from rfl, pow_zero, mul_one]
    exact ⟨hab, fun hlt => absurd hab (by omega)⟩
  | succ f ih =>
    intro a ha hab
    by_cases hba : b ≤ a
    · rw [scaleUp_of_le b a hba, pow_zero, mul_one]
      exact ⟨hba, fun hlt => absurd hba (by omega)⟩
    · have hrec : scaleUp b (f+1) a = scaleUp b f (2*a) + 1 := by
        simp [scaleUp, hba]
      rw [hrec]
      have ha2 : 0 < 2 * a := by omega
      have hab2 : b ≤ 2 * a * 2 ^ f := by
        calc b ≤ a * 2 ^ (f+1) := hab
          _ = 2 * a * 2 ^ f := by ring
      obtain ⟨h1, h2⟩ := ih (2*a) ha2 hab2
      constructor
      · calc b ≤ 2 * a * 2 ^ scaleUp b f (2*a) := h1
          _ = a * 2 ^ (scaleUp b f (2*a) + 1) := by ring
      · intro _
        by_cases h2a : 2 * a < b
        · calc a * 2 ^ (scaleUp b f (2*a) + 1) = 2 * a * 2 ^ scaleUp b f (2*a) := by ring
            _ < 2 * b := h2 h2a
        · rw [scaleUp_of_le b (2*a) (by omega)]
          have hlt : a < b := by omega
          calc a * 2 ^ (0 + 1) = 2 * a := by ring
            _ < 2 * b := by omega

lemma floorLog2_bounds (a b : ℕ) (ha : 0 < a) (hb : 0 < b) :
    (2:ℚ) ^ floorLog2 a b ≤ (a:ℚ) / b ∧ (a:ℚ) / b < 2 ^ (floorLog2 a b + 1) := by
  have hb' : (0:ℚ) < b := by exact_mod_cast hb
  by_cases hba : b ≤ a
  · rw [floorLog2, if_pos hba]
    have h1 : 1 ≤ a / b := (Nat.one_le_div_iff hb).mpr hba
    obtain ⟨hlo, hhi⟩ := natLog2_bounds (a / b) h1
    constructor
    · rw [zpow_natCast]
      calc ((2:ℚ) ^ natLog2 (a/b)) = ((2 ^ natLog2 (a/b) : ℕ) : ℚ) := by push_cast; ring
        _ ≤ ((a / b : ℕ) : ℚ) := by exact_mod_cast hlo
        _ ≤ (a:ℚ) / b := Nat.cast_div_le
    · have h2 : a < 2 ^ (natLog2 (a/b) + 1) * b := (Nat.div_lt_iff_lt_mul hb).mp hhi
      rw [show ((natLog2 (a/b) : ℤ) + 1) = ((natLog2 (a/b) + 1 : ℕ) : ℤ) from by push_cast; ring]
      rw [zpow_natCast, div_lt_iff₀ hb']
      exact_mod_cast h2
  · rw [floorLog2, if_neg hba]
    have halt : a < b := by omega
    have hfuel : b ≤ a * 2 ^ b := by
      calc b ≤ 2 ^ b := le_of_lt (Nat.lt_two_pow b)
        _ ≤ a * 2 ^ b := Nat.le_mul_of_pos_left _ ha
    obtain ⟨h1, h2⟩ := scaleUp_bounds b b a ha hfuel
    have h2' := h2 halt
    have hpk : (0:ℚ) < 2 ^ scaleUp b b a := by positivity
    constructor
    · rw [zpow_neg, zpow_natCast, inv_eq_one_div, div_le_div_iff₀ hpk hb', one_mul]
      calc (b:ℚ) ≤ ((a * 2 ^ scaleUp b b a : ℕ) : ℚ) := by exact_mod_cast h1
        _ = (a:ℚ) * 2 ^ scaleUp b b a := by push_cast; ring
    · rw [show (-(scaleUp b b a : ℤ) + 1) = (1:ℤ) - (scaleUp b b a : ℤ) from by ring]
      rw [zpow_sub₀ (by norm_num : (2:ℚ) ≠ 0), zpow_one, zpow_natCast, div_lt_div_iff₀ hb' hpk]
      calc (a:ℚ) * 2 ^ scaleUp b b a = ((a * 2 ^ scaleUp b b a : ℕ) : ℚ) := by push_cast; ring
        _ < ((2 * b : ℕ) : ℚ) := by exact_mod_cast h2'
        _ = 2 * (b:ℚ) := by push_cast; ring

lemma floorLog2_q_bounds (q : ℚ) (h : 0 < q) :
    (2:ℚ) ^ floorLog2 q.num.natAbs q.den ≤ q ∧ q < 2 ^ (floorLog2 q.num.natAbs q.den + 1) := by
  have hnum : 0 < q.num.natAbs := by
    have := Rat.num_pos.mpr h
    omega
  have hq : ((q.num.natAbs : ℚ)) / q.den = q := by
    rw [Int.cast_natAbs, abs_of_nonneg (by exact_mod_cast le_of_lt (Rat.num_pos.mpr h))]
    exact_mod_cast Rat.num_div_den q
  have hbd := floorLog2_bounds q.num.natAbs q.den hnum q.pos
  rwa [hq] at hbd

lemma rheQ_floor_le (x : ℚ) : ⌊x⌋ ≤ rheQ x := by
  unfold rheQ; split_ifs <;> omega

lemma rheQ_le_floor_add_one (x : ℚ) : rheQ x ≤ ⌊x⌋ + 1 := by
  unfold rheQ; split_ifs <;> omega

lemma rheQ_mono (x y : ℚ) (h : x ≤ y) : rheQ x ≤ rheQ y := by
  rcases lt_or_eq_of_le (Int.floor_le_floor h) with hf | hf
  · calc rheQ x ≤ ⌊x⌋ + 1 := rheQ_le_floor_add_one x
      _ ≤ ⌊y⌋ := by omega
      _ ≤ rheQ y := rheQ_floor_le y
  · unfold rheQ
    rw [hf]
    split_ifs <;> first | omega | linarith

lemma two_zpow_int_cast (n : ℕ) : ((2 ^ n : ℤ) : ℚ) = (2:ℚ) ^ ((n : ℕ) : ℤ) := by
  push_cast
  rw [zpow_natCast]

lemma roundD_pos_eq (q : ℚ) (h : 0 < q) :
    roundD q = (rheQ (q * 2 ^ ((52 : ℤ) - floorLog2 q.num.natAbs q.den)) : ℚ)
      * 2 ^ (floorLog2 q.num.natAbs q.den - 52) := by
  rw [roundD, if_neg (not_le.mpr h)]

lemma roundD_nonneg (q : ℚ) : 0 ≤ roundD q := by
  by_cases h : q ≤ 0
  · rw [roundD, if_pos h]
  · push_neg at h
    rw [roundD_pos_eq q h]
    have hm : (0:ℚ) ≤ q * 2 ^ ((52:ℤ) - floorLog2 q.num.natAbs q.den) := by positivity
    have h1 : (0:ℤ) ≤ ⌊q * 2 ^ ((52:ℤ) - floorLog2 q.num.natAbs q.den)⌋ := Int.floor_nonneg.mpr hm
    have h2 : (0:ℤ) ≤ rheQ (q * 2 ^ ((52:ℤ) - floorLog2 q.num.natAbs q.den)) :=
      le_trans h1 (rheQ_floor_le _)
    have h3 : (0:ℚ) ≤ (rheQ (q * 2 ^ ((52:ℤ) - floorLog2 q.num.natAbs q.den)) : ℚ) := by
      exact_mod_cast h2
    exact mul_nonneg h3 (le_of_lt (zpow_pos (by norm_num) _))

set_option maxRecDepth 10000 in
lemma roundD_mono (x y : ℚ) (h : x ≤ y) : roundD x ≤ roundD y := by
  by_cases hx : x ≤ 0
  · rw [show roundD x = 0 from by rw [roundD, if_pos hx]]
    exact roundD_nonneg y
  · push_neg at hx
    have hy : 0 < y := lt_of_lt_of_le hx h
    obtain ⟨hx1, hx2⟩ := floorLog2_q_bounds x hx
    obtain ⟨hy1, hy2⟩ := floorLog2_q_bounds y hy
    rw [roundD_pos_eq x hx, roundD_pos_eq y hy]
    set e1 := floorLog2 x.num.natAbs x.den with he1
    set e2 := floorLog2 y.num.natAbs y.den with he2
    have hee : e1 ≤ e2 := by
      by_contra hc
      push_neg at hc
      have hpe : (2:ℚ) ^ (e2 + 1) ≤ 2 ^ e1 := zpow_le_zpow_right₀ (by norm_num) (by omega)
      linarith
    rcases eq_or_lt_of_le hee with heq | hlt
    · rw [← heq]
      have hpz : (0:ℚ) < 2 ^ ((52:ℤ) - e1) := zpow_pos (by norm_num) _
      have hmm : x * 2 ^ ((52:ℤ) - e1) ≤ y * 2 ^ ((52:ℤ) - e1) :=
        mul_le_mul_of_nonneg_right h (le_of_lt hpz)
      have hr : rheQ (x * 2 ^ ((52:ℤ) - e1)) ≤ rheQ (y * 2 ^ ((52:ℤ) - e1)) := rheQ_mono _ _ hmm
      exact mul_le_mul_of_nonneg_right (by exact_mod_cast hr)
        (le_of_lt (zpow_pos (by norm_num) _))
    · have h2ne : (2:ℚ) ≠ 0 := by norm_num
      have hxu : (rheQ (x * 2 ^ ((52:ℤ) - e1)) : ℚ) * 2 ^ (e1 - 52) ≤ 2 ^ (e1 + 1) := by
        have hm : x * 2 ^ ((52:ℤ) - e1) < (2:ℚ) ^ (((53:ℕ) : ℤ)) := by
          calc x * 2 ^ ((52:ℤ) - e1) < 2 ^ (e1 + 1) * 2 ^ ((52:ℤ) - e1) :=
                mul_lt_mul_of_pos_right hx2 (zpow_pos (by norm_num) _)
            _ = (2:ℚ) ^ (((53:ℕ) : ℤ)) := by
                rw [← zpow_add₀ h2ne]
                congr 1
                push_cast
                ring
        have hfl : ⌊x * 2 ^ ((52:ℤ) - e1)⌋ < 2 ^ (53:ℕ) := by
          rw [Int.floor_lt, two_zpow_int_cast]
          exact hm
        have hr : (rheQ (x * 2 ^ ((52:ℤ) - e1)) : ℤ) ≤ 2 ^ (53:ℕ) := by
          have := rheQ_le_floor_add_one (x * 2 ^ ((52:ℤ) - e1))
          omega
        have hrq : (rheQ (x * 2 ^ ((52:ℤ) - e1)) : ℚ) ≤ (2:ℚ) ^ (((53:ℕ) : ℤ)) := by
          rw [← two_zpow_int_cast]
          exact_mod_cast hr
        calc (rheQ (x * 2 ^ ((52:ℤ) - e1)) : ℚ) * 2 ^ (e1 - 52)
            ≤ (2:ℚ) ^ (((53:ℕ) : ℤ)) * 2 ^ (e1 - 52) :=
              mul_le_mul_of_nonneg_right hrq (le_of_lt (zpow_pos (by norm_num) _))
          _ = 2 ^ (e1 + 1) := by
              rw [← zpow_add₀ h2ne]
              congr 1
              push_cast
              ring
      have hyl : (2:ℚ) ^ e2 ≤ (rheQ (y * 2 ^ ((52:ℤ) - e2)) : ℚ) * 2 ^ (e2 - 52) := by
        have hm : (2:ℚ) ^ (((52:ℕ) : ℤ)) ≤ y * 2 ^ ((52:ℤ) - e2) := by
          calc (2:ℚ) ^ (((52:ℕ) : ℤ)) = 2 ^ e2 * 2 ^ ((52:ℤ) - e2) := by
                rw [← zpow_add₀ h2ne]
                congr 1
                push_cast
                ring
            _ ≤ y * 2 ^ ((52:ℤ) - e2) :=
                mul_le_mul_of_nonneg_right hy1 (le_of_lt (zpow_pos (by norm_num) _))
        have hfl : ((2 ^ (52:ℕ) : ℤ)) ≤ ⌊y * 2 ^ ((52:ℤ) - e2)⌋ := by
          rw [Int.le_floor, two_zpow_int_cast]
          exact hm
        have hr : ((2 ^ (52:ℕ) : ℤ)) ≤ rheQ (y * 2 ^ ((52:ℤ) - e2)) :=
          le_trans hfl (rheQ_floor_le _)
        have hrq : (2:ℚ) ^ (((52:ℕ) : ℤ)) ≤ (rheQ (y * 2 ^ ((52:ℤ) - e2)) : ℚ) := by
          rw [← two_zpow_int_cast]
          exact_mod_cast hr
        calc (2:ℚ) ^ e2 = (2:ℚ) ^ (((52:ℕ) : ℤ)) * 2 ^ (e2 - 52) := by
              rw [← zpow_add₀ h2ne]
              congr 1
              push_cast
              ring
          _ ≤ (rheQ (y * 2 ^ ((52:ℤ) - e2)) : ℚ) * 2 ^ (e2 - 52) :=
              mul_le_mul_of_nonneg_right hrq (le_of_lt (zpow_pos (by norm_num) _))
      have hmid : (2:ℚ) ^ (e1 + 1) ≤ 2 ^ e2 := zpow_le_zpow_right₀ (by norm_num) (by omega)
      linarith

/-- C6 (amended): `hyperP_scaler` computes `int(n / 2000 * 10) + 1` and
`int(n / 2000 * 15) + 1` in float arithmetic; both outputs are monotonically
non-decreasing in the corpus size `n` and never below 1.  The claim's exact
formulas `floor(n/2000*10)+1` and `floor(n/2000*15)+1` do not always hold:
the two float roundings can land just below an integer the exact product
reaches, making the result one less (see the counterexample at `n = 16400`). -/
theorem hyperP_scaler_monotone_ge_one (n m : Nat) (h : n ≤ m) :
    (hyperP_scaler n).1 ≤ (hyperP_scaler m).1 ∧ (hyperP_scaler n).2 ≤ (hyperP_scaler m).2
    ∧ 1 ≤ (hyperP_scaler n).1 ∧ 1 ≤ (hyperP_scaler n).2 := by
  have hdiv : (n : ℚ) / 2000 ≤ (m : ℚ) / 2000 :=
    (div_le_div_iff_of_pos_right (by norm_num)).mpr (by exact_mod_cast h)
  have hd : roundD ((n : ℚ) / 2000) ≤ roundD ((m : ℚ) / 2000) := roundD_mono _ _ hdiv
  have h10 : roundD (roundD ((n : ℚ) / 2000) * 10) ≤ roundD (roundD ((m : ℚ) / 2000) * 10) :=
    roundD_mono _ _ (mul_le_mul_of_nonneg_right hd (by norm_num))
  have h15 : roundD (roundD ((n : ℚ) / 2000) * 15) ≤ roundD (roundD ((m : ℚ) / 2000) * 15) :=
    roundD_mono _ _ (mul_le_mul_of_nonneg_right hd (by norm_num))
  refine ⟨?_, ?_, ?_, ?_⟩
  · exact Nat.add_le_add_right (Nat.floor_le_floor h10) 1
  · exact Nat.add_le_add_right (Nat.floor_le_floor h15) 1
  · exact Nat.succ_le_succ (Nat.zero_le _)
  · exact Nat.succ_le_succ (Nat.zero_le _)

/-- C6 counterexample: at corpus size 16400 the program returns a second
component (the UMAP neighbourhood size) of 123, because
`16400 / 2000 * 15` evaluates in binary64 to 122.99999999999998…, while the
claim's formula `floor(16400/2000*15) + 1 = 16400*15/2000 + 1` gives 124. -/
theorem hyperP_scaler_float_counterexample :
    hyperP_scaler 16400 = (83, 123) ∧ 16400 * 15 / 2000 + 1 = 124 := by
  set_option maxRecDepth 10000 in
  set_option maxHeartbeats 1000000 in
  decide

/-- Witness for the amended C6 theorem at corpus sizes 3000 and 5000. -/
theorem hyperP_scaler_monotone_ge_one_witness :
    (hyperP_scaler 3000).1 ≤ (hyperP_scaler 5000).1
    ∧ (hyperP_scaler 3000).2 ≤ (hyperP_scaler 5000).2
    ∧ 1 ≤ (hyperP_scaler 3000).1 ∧ 1 ≤ (hyperP_scaler 3000).2 :=
  hyperP_scaler_monotone_ge_one 3000 5000 (by decide)

/-! ## C7: min-max normalisation extremes -/

/-- C7: the min-max normalisation used for the citation, recency and topic
components of `inclusion_criteria` (lines 673, 677 and 688 all apply
`(s - s.min()) / (s.max() - s.min())`, modelled by `minmaxNormOpt`) maps any
record holding the batch maximum to exactly 1 and any record holding the
batch minimum to exactly 0, whenever the batch is non-degenerate
(minimum ≠ maximum); this is the component value before weight
multiplication. -/
theorem minmax_extremes (xs : List (Option ℚ)) (mn mx : ℚ) (i j : Nat)
    (hmn : seriesMin xs = some mn) (hmx : seriesMax xs = some mx) (hne : mn ≠ mx)
    (hi : xs[i]? = some (some mx)) (hj : xs[j]? = some (some mn)) :
    (minmaxNormOpt xs)[i]? = some (some 1) ∧ (minmaxNormOpt xs)[j]? = some (some 0) := by
  have hd : mx - mn ≠ 0 := sub_ne_zero.mpr (fun he => hne he.symm)
  simp only [minmaxNormOpt, hmn, hmx]
  rw [if_neg hd]
  constructor
  · rw [List.getElem?_map, hi]
    show some (some ((mx - mn) / (mx - mn))) = some (some 1)
    rw [div_self hd]
  · rw [List.getElem?_map, hj]
    show some (some ((mn - mn) / (mx - mn))) = some (some 0)
    rw [sub_self, zero_div]

/-- Witness for C7 on the batch `[some 1, some 3]`. -/
theorem minmax_extremes_witness :
    (minmaxNormOpt [some 1, some 3])[1]? = some (some 1)
    ∧ (minmaxNormOpt [some 1, some 3])[0]? = some (some 0) :=
  minmax_extremes [some 1, some 3] 1 3 1 0 (by decide) (by decide) (by decide)
    (by decide) (by decide)

/-! ## C10: `fit_topic_model` -/

lemma filterMap_map_some {α β : Type} (f : α → Option β) (l : List α)
    (h : ∀ x ∈ l, (f x).isSome = true) :
    (l.filterMap f).map Option.some = l.map f := by
  induction l with
  | nil => rfl
  | cons a l ih =>
    obtain ⟨b, hb⟩ := Option.isSome_iff_exists.mp (h a (List.mem_cons_self a l))
    rw [List.filterMap_cons, hb]
    simp only [List.map_cons, hb]
    rw [ih (fun x hx => h x (List.mem_cons_of_mem a hx))]

/-- C10: `fit_topic_model` returns the corpus restricted to exactly the
records with a non-missing Abstract — an in-order sublist containing every
abstract-bearing record with its original multiplicity and field values and
no abstract-less record — and the document sequence handed to
`fit_transform` is precisely that subset's abstracts in the same order. -/
theorem fit_topic_model_spec (corpus : List Paper) :
    (fit_topic_model corpus).1.Sublist corpus
    ∧ (∀ p ∈ (fit_topic_model corpus).1, p.abstract.isSome = true)
    ∧ (∀ p : Paper, p.abstract.isSome = true →
        (fit_topic_model corpus).1.count p = corpus.count p)
    ∧ (∀ p : Paper, p.abstract.isSome = false → (fit_topic_model corpus).1.count p = 0)
    ∧ (fit_topic_model corpus).2.map Option.some = (fit_topic_model corpus).1.map Paper.abstract := by
  have hfix : (fit_topic_model corpus).1 = corpus.filter (fun p => p.abstract.isSome) := rfl
  have hdocs : (fit_topic_model corpus).2 =
      (corpus.filter (fun p => p.abstract.isSome)).filterMap Paper.abstract := rfl
  rw [hfix, hdocs]
  refine ⟨List.filter_sublist _, ?_, ?_, ?_, ?_⟩
  · intro p hp
    have hmem := List.of_mem_filter hp
    exact hmem
  · intro p hp
    exact List.count_filter hp
  · intro p hp
    refine List.count_eq_zero.mpr (fun hmem => ?_)
    have hval := List.of_mem_filter hmem
    rw [hp] at hval
    exact Bool.noConfusion hval
  · refine filterMap_map_some _ _ (fun x hx => ?_)
    have hval := List.of_mem_filter hx
    exact hval

/-- Witness for C10 on a two-record corpus with one abstract-less record. -/
theorem fit_topic_model_spec_witness :
    (fit_topic_model [absPaper, noAbsPaper]).1.Sublist [absPaper, noAbsPaper]
    ∧ (fit_topic_model [absPaper, noAbsPaper]).1.count absPaper =
        ([absPaper, noAbsPaper] : List Paper).count absPaper :=
  ⟨(fit_topic_model_spec [absPaper, noAbsPaper]).1,
    (fit_topic_model_spec [absPaper, noAbsPaper]).2.2.1 absPaper (by decide)⟩

/-! ## Lemmas about the descending stable sort -/

lemma sortTagged_perm {α : Type} (sv : α → Option ℚ) (l : List (Nat × α)) :
    (sortTagged sv l).Perm l := by
  unfold sortTagged
  exact ((List.perm_insertionSort _ _).append_right _).trans
    (List.filter_append_perm (fun p => (sv p.2).isSome) l)

lemma sortTagged_sorted_desc {α : Type} (sv : α → Option ℚ) (l : List (Nat × α)) :
    (sortTagged sv l).Pairwise
      (fun x y => ∀ qa qb, sv x.2 = some qa → sv y.2 = some qb → qb ≤ qa) := by
  unfold sortTagged
  rw [List.pairwise_append]
  refine ⟨?_, ?_, ?_⟩
  · have hs := List.sorted_insertionSort (scoreRel sv) (l.filter (fun p => (sv p.2).isSome))
    refine hs.imp ?_
    intro a b hab qa qb ha hb
    rcases hab with hlt | ⟨heq, _⟩
    · rw [ha, hb] at hlt
      exact le_of_lt hlt
    · rw [ha, hb] at heq
      exact le_of_eq heq.symm
  · refine List.pairwise_of_forall_mem_list ?_
    intro a _ b hb qa qb ha' hb'
    have h1 := List.of_mem_filter hb
    rw [hb'] at h1
    exact Bool.noConfusion h1
  · intro a _ b hb qa qb ha' hb'
    have h1 := List.of_mem_filter hb
    rw [hb'] at h1
    exact Bool.noConfusion h1

lemma mem_sortByScoreDesc {α : Type} {sv : α → Option ℚ} {rows : List α} {x : α} :
    x ∈ sortByScoreDesc sv rows ↔ x ∈ rows := by
  unfold sortByScoreDesc
  constructor
  · intro hx
    rcases List.mem_map.mp hx with ⟨p, hp, rfl⟩
    have hmem := (sortTagged_perm sv rows.enum).mem_iff.mp hp
    have h2 : p.2 ∈ rows.enum.map Prod.snd := List.mem_map_of_mem Prod.snd hmem
    rwa [List.enum_map_snd] at h2
  · intro hx
    have hx' : x ∈ rows.enum.map Prod.snd := by rwa [List.enum_map_snd]
    rcases List.mem_map.mp hx' with ⟨p, hp, rfl⟩
    exact List.mem_map_of_mem Prod.snd ((sortTagged_perm sv rows.enum).mem_iff.mpr hp)

/-! ## C8: the round-trip export -/

lemma fillCellQ_eq_num {o : Option ℚ} {q : ℚ} (h : fillCellQ o = .num q) : o = some q := by
  cases o with
  | some x =>
    simp only [fillCellQ] at h
    exact congrArg some (Cell.num.inj h)
  | none =>
    simp only [fillCellQ] at h
    exact Cell.noConfusion h

lemma rightMerge_unmatched_mem (raw : List RisEntry) (ranked : List RankedRow)
    (r : RankedRow) (hr : r ∈ ranked) (hun : ∀ e ∈ raw, risMatches r e = false) :
    (⟨none, none, none, none, r.rtitle, r.rsource, r.score, r.citeScore,
      r.recencyScore, r.topicScore⟩ : MergedRow) ∈ rightMerge raw ranked := by
  induction ranked with
  | nil => exact absurd hr (List.not_mem_nil _)
  | cons rh rs ih =>
    rw [rightMerge]
    rcases List.mem_cons.mp hr with rfl | hmem
    · refine List.mem_append_left _ ?_
      unfold matchRows
      rw [List.filter_eq_nil_iff.mpr
        (fun e he hmatch => Bool.noConfusion ((hun e he) ▸ hmatch))]
      exact List.mem_singleton.mpr rfl
    · exact List.mem_append_right _ (ih hmem)

/-- C8: in the round-trip export of `return_included_papers`, every ranked
row that the natural-key join left unmatched appears with all of its raw
cells filled with the literal sentinel string "none" (never null), and the
exported rows are ordered by composite score descending (NaN scores, if any,
are exported last as the sentinel and carry no numeric value). -/
theorem return_included_papers_export_spec (raw : List RisEntry) (ranked : List RankedRow) :
    (∀ r ∈ ranked, (∀ e ∈ raw, risMatches r e = false) →
      (⟨.str noneSentinel, .str noneSentinel, .str noneSentinel, .str noneSentinel,
        fillCellQ r.score, fillCellQ r.citeScore, fillCellQ r.recencyScore,
        fillCellQ r.topicScore⟩ : ExportRow) ∈ return_included_papers_export raw ranked)
    ∧ (return_included_papers_export raw ranked).Pairwise
        (fun x y => ∀ qa qb, x.custom1 = .num qa → y.custom1 = .num qb → qb ≤ qa) := by
  constructor
  · intro r hr hun
    have hm := rightMerge_unmatched_mem raw ranked r hr hun
    have hm2 : (⟨none, none, none, none, r.rtitle, r.rsource, r.score, r.citeScore,
        r.recencyScore, r.topicScore⟩ : MergedRow) ∈
        sortByScoreDesc MergedRow.score (rightMerge raw ranked) :=
      mem_sortByScoreDesc.mpr hm
    exact List.mem_map_of_mem exportRowOf hm2
  · unfold return_included_papers_export sortByScoreDesc
    rw [List.pairwise_map, List.pairwise_map]
    have hd := sortTagged_sorted_desc MergedRow.score (rightMerge raw ranked).enum
    refine hd.imp ?_
    intro a b hab qa qb ha hb
    exact hab qa qb (fillCellQ_eq_num ha) (fillCellQ_eq_num hb)

/-- Witness for C8: one raw entry, two ranked rows, one of them unmatched. -/
theorem return_included_papers_export_spec_witness :
    (⟨.str noneSentinel, .str noneSentinel, .str noneSentinel, .str noneSentinel,
      fillCellQ rankedZZ.score, fillCellQ rankedZZ.citeScore,
      fillCellQ rankedZZ.recencyScore, fillCellQ rankedZZ.topicScore⟩ : ExportRow) ∈
      return_included_papers_export [entryAS] [rankedAS, rankedZZ] :=
  (return_included_papers_export_spec [entryAS] [rankedAS, rankedZZ]).1 rankedZZ
    (by decide) (by decide)

/-! ## C1, C2, C3: concrete evaluations of the degenerate paths -/

set_option maxHeartbeats 1000000 in
/-- C1: on a batch whose citation counts are all equal (here 7 and 7), the
scoring pipeline completes without raising, but every record's citation
component is NaN (the float 0/0 of
`(Citations - min) / (max - min)` with `max - min = 0`), not the 0 required
by the specification's degenerate-batch policy. -/
theorem inclusion_criteria_degenerate_citations :
    (inclusion_criteria [paperA, paperB] labsTwo tdfTwo wFull true).map
      (fun l => l.map OutRow.citeScore) = .ok [none, none] := by
  decide

set_option maxHeartbeats 1000000 in
/-- C2: the end-to-end scenario — citation counts [10, 0, 5, 5], years
[2020, 2019, 2021, 2021], weights cites=1, recency=0, topics=0.  With no
per-topic weight keys, `score_list` is empty, the per-row topic sum is 0
everywhere, its min-max normalisation is 0/0 = NaN, and NaN·0 = NaN poisons
every composite score; the sort therefore leaves the rows in their original
order [10, 0, 5, 5] rather than the claimed citation-descending
[10, 5, 5, 0]. -/
theorem inclusion_criteria_citesonly_scenario :
    (inclusion_criteria [recTen, recZero, recFiveA, recFiveB] labsTwo tdfFour
        wCitesOnly true).map (fun l => l.map (fun r => r.paper.map Paper.citations)) =
      .ok [some 10, some 0, some 5, some 5]
    ∧ (inclusion_criteria [recTen, recZero, recFiveA, recFiveB] labsTwo tdfFour
        wCitesOnly true).map (fun l => l.map OutRow.score) =
      .ok [none, none, none, none] := by
  constructor
  · decide
  · decide

/-- C3: integrating a 5-row distribution matrix against a 6-row corpus
raises nothing: `pd.concat(axis=1)` outer-joins on the positional index,
silently producing a 6-row frame whose sixth row has NaN topic cells. -/
theorem concatTopics_mismatch_silent :
    (concatTopics sixPapers tdfFive).length = 6
    ∧ (concatTopics sixPapers tdfFive).map IRow.tvals =
        [some [1], some [2], some [3], some [4], some [5], none]
    ∧ (concatTopics sixPapers tdfFive).map IRow.paper = sixPapers.map some := by
  refine ⟨by decide, by decide, by decide⟩

/-! ## C9: non-reserved weight keys -/

set_option maxHeartbeats 1000000 in
/-- C9 counterexample: a weight key that is neither reserved nor a topic
column — here the bibliographic column name "Year" — does not make
`inclusion_criteria` fail: the run completes, silently incorporating the
Year column into the topic component. -/
theorem inclusion_criteria_year_key_counterexample :
    (inclusion_criteria [paperA, paperB] labsTwo tdfTwo wYearKey true).isOk = true := by
  decide

/-- C9 (amended): a non-reserved weight key makes `inclusion_criteria` fail
with a `KeyError` when the loop reads `output[key]` exactly when it names no
column of the frame at that point — not `Year` or `Citations`, not a
string-valued bibliographic column, not a non-outlier topic label, and not
a score column already created by an earlier iteration (`cite_score` after
`cites`, `recency_score` after `recency`, or an earlier key's `W` column);
such keys are never silently ignored.  Keys that do name an existing column
(a numeric bibliographic column like `Year`, or an already-created score
column) are silently folded into the topic component instead, as the
counterexample exhibits. -/
theorem inclusion_criteria_unknown_key_error
    (corpus : List Paper) (labels : List String) (tdf : List (List ℚ))
    (a b c d : ℚ) (k : String) (flag : Bool)
    (h1 : k ≠ "cites") (h2 : k ≠ "recency") (h3 : k ≠ "topics")
    (h4 : k ≠ "Year") (h5 : k ≠ "Citations") (h6 : k ∉ paperStrCols)
    (h7 : ∀ s ∈ labels.tail, s ≠ k)
    (h8 : k ≠ "cite_score") (h9 : k ≠ "recency_score") :
    inclusion_criteria corpus labels tdf
      [("cites", a), ("recency", b), ("topics", c), (k, d)] flag =
      .error (.keyError k) := by
  have hfind : labels.tail.findIdx? (fun s => decide (s = k)) = none :=
    List.findIdx?_eq_none_iff.mpr
      (fun s hs => by simp only [decide_eq_false_iff_not]; exact h7 s hs)
  have h6' : ¬(k = "DOI" ∨ k = "Title" ∨ k = "Authors" ∨ k = "Source" ∨ k = "Volume" ∨
      k = "Start" ∨ k = "End" ∨ k = "Abstract" ∨ k = "Type") := by
    simpa [paperStrCols] using h6
  unfold inclusion_criteria scoredRows
  simp [scoreLoop, citesKey, recencyKey, topicsKey, getNumCol, topicOrCreatedCol,
    paperStrCols, List.lookup, h1, h2, h3, h4, h5, h6', h8, h9, hfind]

/-- Witness for the amended C9 theorem with the unknown key "zzz". -/
theorem inclusion_criteria_unknown_key_error_witness :
    inclusion_criteria [paperA, paperB] labsTwo tdfTwo
      [("cites", 1), ("recency", 1), ("topics", 1), ("zzz", 1)] true =
      .error (.keyError "zzz") :=
  inclusion_criteria_unknown_key_error [paperA, paperB] labsTwo tdfTwo 1 1 1 1 "zzz" true
    (by decide) (by decide) (by decide) (by decide) (by decide) (by decide) (by decide)
    (by decide) (by decide)
